import Mathlib

/-!
Verification of the HawkEye / adhawkapi communication core.

Shallow embedding of the Python sources under
`src/client/Lib/site-packages/adhawkapi/` into Lean 4, with theorems
settling the specification's testable properties.

Conventions of the embedding:
* Python dicts are association lists in insertion order (`setdefault`
  keeps an existing entry and appends a fresh one at the end).
* Python unbounded integers are `Int`/`Nat`; Python floats are modelled
  as exact rationals `ℚ` (binary rounding of IEEE doubles is not
  modelled; the claims under study are about declared quantization
  tolerances, which are exact-arithmetic statements).
* Exceptions are `Except`/`Option` results; an operation whose Python
  original would crash with an uncaught `AttributeError` is modelled as
  returning `none`.
-/

namespace HawkEye

/- ===================== apipacket.py : Trie ===================== -/

/-- A key of one of the nested dicts inside `Trie` (`apipacket.py`):
either a concrete byte of a registered header, or the wildcard entry
stored under the string key of `Wildcard.WILDCARD.value`. -/
inductive TrieKey where
  | byte (b : Nat)
  | wildcard
  deriving DecidableEq, Repr

/-- A node of the dict-of-dicts trie: an inner dict, or a registered
value (leaf).  Registered values in the source are packet classes, never
dicts, so `isinstance(node, dict)` distinguishes the two constructors. -/
inductive TrieNode (α : Type) where
  | dict (entries : List (TrieKey × TrieNode α))
  | leaf (v : α)

/-- `node[k]` lookup in one dict level (raises `KeyError` ↦ `none`). -/
def dictFind (k : TrieKey) : List (TrieKey × TrieNode α) → Option (TrieNode α)
  | [] => none
  | (k2, n) :: rest => if k2 = k then some n else dictFind k rest

/-- Replace the (unique) entry under key `k` by `n`, as the in-place
mutation of the child dict does in Python. -/
def dictReplace (entries : List (TrieKey × TrieNode α)) (k : TrieKey) (n : TrieNode α) :
    List (TrieKey × TrieNode α) :=
  entries.map (fun p => if p.1 = k then (k, n) else p)

/-- `Trie.add`, one dict level at a time.  Mirrors
`node = node.setdefault(element, value if idx == len(prefix) else {})`:
the last element defaults to the leaf value, earlier elements default to
a fresh dict; an existing entry is kept.  Descending through an existing
*leaf* with elements still to insert makes the next iteration call
`.setdefault` on a non-dict, an uncaught `AttributeError`: modelled as
`none` (the registration does not succeed). -/
def addAux : List (TrieKey × TrieNode α) → List TrieKey → α → Option (List (TrieKey × TrieNode α))
  | entries, [], _ => some entries
  | entries, [k], v =>
    match dictFind k entries with
    | some _ => some entries
    | none => some (entries ++ [(k, .leaf v)])
  | entries, k :: k2 :: rest, v =>
    match dictFind k entries with
    | some (.dict es) => (addAux es (k2 :: rest) v).map (fun es2 => dictReplace entries k (.dict es2))
    | some (.leaf _) => none
    | none => (addAux [] (k2 :: rest) v).map (fun es2 => entries ++ [(k, .dict es2)])

/-- `Trie.get`, walking a byte sequence: at each level try the byte key,
fall back to the wildcard key, raise `KeyError` (`none`) if neither is
present; return the value as soon as a non-dict node is reached; raise
if the sequence is exhausted first. -/
def getAux : List (TrieKey × TrieNode α) → List Nat → Option α
  | _, [] => none
  | entries, b :: rest =>
    match (dictFind (.byte b) entries).orElse (fun _ => dictFind .wildcard entries) with
    | none => none
    | some (.leaf v) => some v
    | some (.dict es) => getAux es rest

/-- The `Trie` of `apipacket.py`: `self._root` is a dict. -/
structure Trie (α : Type) where
  root : List (TrieKey × TrieNode α)

def Trie.empty : Trie α := ⟨[]⟩

def Trie.add (t : Trie α) (pfx : List TrieKey) (v : α) : Option (Trie α) :=
  (addAux t.root pfx v).map (⟨·⟩)

def Trie.get (t : Trie α) (bs : List Nat) : Option α :=
  getAux t.root bs

/-- Registering a list of headers in order, as the class-registration
side effects do at import time; `none` if any registration crashes. -/
def buildTrie (regs : List (List TrieKey × α)) : Option (Trie α) :=
  regs.foldlM (fun t r => t.add r.1 r.2) Trie.empty

/-- A byte sequence matches a header when it has the same length and
agrees with every concrete byte (a wildcard position matches anything). -/
def matchesHeader (h : List TrieKey) (bs : List Nat) : Prop :=
  List.Forall₂ (fun k b => k = TrieKey.byte b ∨ k = TrieKey.wildcard) h bs

/-- The shape `addAux` builds from an empty dict: a single chain of
nested one-entry dicts ending in the leaf. -/
def chainEntries : List TrieKey → α → List (TrieKey × TrieNode α)
  | [], _ => []
  | [k], v => [(k, .leaf v)]
  | k :: k2 :: rest, v => [(k, .dict (chainEntries (k2 :: rest) v))]

theorem addAux_nil_eq_chain (pfx : List TrieKey) (v : α) :
    addAux [] pfx v = some (chainEntries pfx v) := by
  match pfx with
  | [] => rfl
  | [k] => rfl
  | k :: k2 :: rest =>
    simp [addAux, chainEntries, dictFind, addAux_nil_eq_chain (k2 :: rest) v]

theorem addAux_prefix_noop (h1 s : List TrieKey) (hs : s ≠ []) (v1 v2 : α) :
    addAux (chainEntries (h1 ++ s) v2) h1 v1 = some (chainEntries (h1 ++ s) v2) := by
  induction h1 with
  | nil => rfl
  | cons k tl ih =>
    cases tl with
    | nil =>
      cases s with
      | nil => exact absurd rfl hs
      | cons k2 rest =>
        cases rest with
        | nil => simp [chainEntries, addAux, dictFind]
        | cons k3 rest2 => simp [chainEntries, addAux, dictFind]
    | cons k2 tl2 =>
      simp only [List.cons_append] at ih ⊢
      rw [show chainEntries (k :: k2 :: (tl2 ++ s)) v2 =
          [(k, TrieNode.dict (chainEntries (k2 :: (tl2 ++ s)) v2))] from rfl]
      simp [addAux, dictFind, dictReplace, ih]

theorem getAux_chain (h2 : List TrieKey) (bs ext : List Nat) (v2 : α)
    (hmatch : matchesHeader h2 bs) (hne : h2 ≠ []) :
    getAux (chainEntries h2 v2) (bs ++ ext) = some v2 := by
  induction hmatch with
  | nil => exact absurd rfl hne
  | cons hrel htail ih =>
    rename_i k b tlk tlb
    cases tlk with
    | nil =>
      have : tlb = [] := by cases htail; rfl
      subst this
      rcases hrel with h | h <;> subst h <;>
        simp [chainEntries, getAux, dictFind, Option.orElse]
    | cons k2 tlk2 =>
      have htlne : k2 :: tlk2 ≠ [] := by simp
      have step : getAux (chainEntries (k :: k2 :: tlk2) v2) ((b :: tlb) ++ ext) =
          getAux (chainEntries (k2 :: tlk2) v2) (tlb ++ ext) := by
        rcases hrel with h | h <;> subst h <;>
          simp [chainEntries, getAux, dictFind, Option.orElse]
      rw [step]
      exact ih htlne

/-- Claim C1 (amended): for the trie built by registering a longer
header `h1 ++ s` and then a shorter header `h1` that is a strict
byte-prefix of it (the only registration order for which both
registrations complete), looking up any byte sequence that extends the
longer header returns the value registered for the longer header, never
the value registered for the shorter one.  (With further headers
registered below the longer one the property fails, see the
counterexample.) -/
theorem trie_longest_prefix {α : Type} (h1 s : List TrieKey) (v1 v2 : α) (t : Trie α)
    (bs ext : List Nat) (hs : s ≠ [])
    (hbuild : buildTrie [(h1 ++ s, v2), (h1, v1)] = some t)
    (hmatch : matchesHeader (h1 ++ s) bs) :
    t.get (bs ++ ext) = some v2 := by
  have hne : h1 ++ s ≠ [] := by
    intro h
    exact hs (List.append_eq_nil.mp h).2
  have hb : buildTrie [(h1 ++ s, v2), (h1, v1)] =
      some ⟨chainEntries (h1 ++ s) v2⟩ := by
    simp [buildTrie, Trie.add, Trie.empty, addAux_nil_eq_chain,
      addAux_prefix_noop h1 s hs v1 v2]
  rw [hb] at hbuild
  cases hbuild
  exact getAux_chain (h1 ++ s) bs ext v2 hmatch hne

theorem trie_longest_prefix_witness :
    Trie.get ⟨[(TrieKey.byte 1, TrieNode.dict [(TrieKey.byte 2, TrieNode.leaf (2 : Nat))])]⟩
      ([1, 2] ++ [9]) = some 2 :=
  trie_longest_prefix [TrieKey.byte 1] [TrieKey.byte 2] 1 2 _ [1, 2] [9]
    (by simp) rfl (.cons (Or.inl rfl) (.cons (Or.inl rfl) .nil))

/-- Claim C1, counterexample to the claim as stated: register the chain
of headers (1,2,3) ↦ 3, then (1,2) ↦ 2, then (1) ↦ 1 (the one order in
which all three registrations complete without crashing).  The set
contains the pair (1,2) ⊏ (1,2,3); the byte sequence (1,2,3) extends the
longer header (1,2) of that pair, yet lookup returns 3 — the definition
registered for (1,2,3) — not 2, the definition registered for (1,2). -/
theorem trie_longest_prefix_cex :
    (buildTrie [([TrieKey.byte 1, TrieKey.byte 2, TrieKey.byte 3], (3 : Nat)),
                ([TrieKey.byte 1, TrieKey.byte 2], 2),
                ([TrieKey.byte 1], 1)]).bind (fun t => t.get [1, 2, 3]) = some 3 ∧
    ((buildTrie [([TrieKey.byte 1, TrieKey.byte 2, TrieKey.byte 3], (3 : Nat)),
                 ([TrieKey.byte 1, TrieKey.byte 2], 2),
                 ([TrieKey.byte 1], 1)]).bind (fun t => t.get [1, 2, 3])) ≠ some 2 := by
  exact ⟨rfl, by decide⟩

/- ============ normalize.py / register_specs.py : transformers ============ -/

/-- Python `int()` on a number: truncation toward zero, on the exact
rational modelling the float. -/
def pyint (q : ℚ) : ℤ := if 0 ≤ q then ⌊q⌋ else ⌈q⌉

/-- `normalize.linearnorm(val, inputrange, outputrange)`.  The ranges are
passed as their two endpoints (the length-2 tuple check of the source is
structural here).  `TypeError` exits are the `.error` results; note the
deliberate `+ 1` in the gain, kept from the source. -/
def linearnorm (val inputmin inputmax outputmin outputmax : ℚ) : Except String ℚ :=
  if inputmin > inputmax ∨ outputmin > outputmax then
    .error "Range is not sorted. Must be (min, max)"
  else if val < inputmin ∨ val > inputmax then
    .error "Value provided does not fall within the input range specified"
  else if val = inputmax then .ok outputmax
  else if val = inputmin then .ok outputmin
  else
    .ok ((outputmax - outputmin + 1) / (inputmax - inputmin + 1) *
      (max (min val inputmax) inputmin - inputmin) + outputmin)

/-- `TransformQuantize.transform`: `int((float(value) / max_val) * (2**num_bits - 1))`. -/
def TransformQuantize.transform (maxVal : ℚ) (numBits : ℕ) (value : ℚ) : ℤ :=
  pyint (value / maxVal * (2 ^ numBits - 1))

/-- `TransformQuantize.invert`: `(float(value) / (2**num_bits - 1)) * max_val`. -/
def TransformQuantize.invert (maxVal : ℚ) (numBits : ℕ) (value : ℚ) : ℚ :=
  value / (2 ^ numBits - 1) * maxVal

/-- `TransformMetricConversion.transform`: `int(value * multiplier)`. -/
def TransformMetricConversion.transform (multiplier value : ℚ) : ℤ :=
  pyint (value * multiplier)

/-- `TransformMetricConversion.invert`: `float(value) / multiplier`. -/
def TransformMetricConversion.invert (multiplier value : ℚ) : ℚ :=
  value / multiplier

/-- `TransformLinearNorm.transform`: `int(normalize.linearnorm(value, userrange, hwrange))`,
re-raising the `TypeError` as `ValueError`. -/
def TransformLinearNorm.transform (umin umax hmin hmax value : ℚ) : Except String ℤ :=
  (linearnorm value umin umax hmin hmax).map pyint

/-- `TransformLinearNorm.invert`: `normalize.linearnorm(value, hwrange, userrange)`. -/
def TransformLinearNorm.invert (umin umax hmin hmax value : ℚ) : Except String ℚ :=
  linearnorm value hmin hmax umin umax

/-- The loop body of `TransformBitfield.transform`: check each choice
against the `choices` dict keys and OR in `1 << choice`. -/
def TransformBitfield.transformAux (choices : List ℕ) (bitfield : ℕ) :
    List ℕ → Except String ℕ
  | [] => .ok bitfield
  | choice :: rest =>
    if choice ∈ choices then
      TransformBitfield.transformAux choices (bitfield ||| (1 <<< choice)) rest
    else .error "choice is not a valid option for the register"

/-- `TransformBitfield.transform`: a collection of enabled choices to a
bitfield; `choices` are the keys of the choices dict in insertion order. -/
def TransformBitfield.transform (choices value : List ℕ) : Except String ℕ :=
  TransformBitfield.transformAux choices 0 value

/-- `TransformBitfield.invert`: the keys of the choices dict whose bit is
set in the value (`if value & (1 << bit)`), in dict order. -/
def TransformBitfield.invert (choices : List ℕ) (value : ℕ) : List ℕ :=
  choices.filter (fun bit => value &&& (1 <<< bit) != 0)

/-- `TransformSelection.transform`: a `KeyError` on the choices dict
becomes a `ValueError`; a valid selection passes through unchanged. -/
def TransformSelection.transform (choices : List ℤ) (value : ℤ) : Except String ℤ :=
  if value ∈ choices then .ok value
  else .error "value is not a valid option for the register"

/-- `TransformSelection.invert`: returns the value unchanged (an unknown
value only logs a warning). -/
def TransformSelection.invert (choices : List ℤ) (value : ℤ) : ℤ := value

theorem pyint_of_nonneg {q : ℚ} (h : 0 ≤ q) : pyint q = ⌊q⌋ := if_pos h

theorem pyint_abs_le (q : ℚ) : |(pyint q : ℚ) - q| ≤ 1 := by
  have h1 := Int.floor_le q
  have h2 := Int.lt_floor_add_one q
  have h3 := Int.le_ceil q
  have h4 := Int.ceil_lt_add_one q
  unfold pyint
  split <;> rw [abs_le] <;> constructor <;> push_cast <;> linarith

theorem quantize_roundtrip (maxVal : ℚ) (numBits : ℕ) (x : ℚ)
    (hm : 0 < maxVal) (hn : 1 ≤ numBits) (hx0 : 0 ≤ x) (hx1 : x ≤ maxVal) :
    |TransformQuantize.invert maxVal numBits
        ((TransformQuantize.transform maxVal numBits x : ℤ) : ℚ) - x|
      ≤ maxVal / (2 ^ numBits - 1) := by
  have h2 : (2 : ℚ) ≤ 2 ^ numBits := by
    calc (2 : ℚ) = 2 ^ 1 := (pow_one 2).symm
    _ ≤ 2 ^ numBits := pow_le_pow_right₀ (by norm_num) hn
  have hM : (0 : ℚ) < 2 ^ numBits - 1 := by linarith
  set q := x / maxVal * (2 ^ numBits - 1) with hq
  have hq0 : 0 ≤ q := mul_nonneg (div_nonneg hx0 hm.le) (by linarith)
  have ht : TransformQuantize.transform maxVal numBits x = ⌊q⌋ := by
    rw [TransformQuantize.transform, ← hq, pyint_of_nonneg hq0]
  have hxq : x = q / (2 ^ numBits - 1) * maxVal := by
    rw [hq]
    field_simp
    ring
  have habs : |(⌊q⌋ : ℚ) - q| ≤ 1 := by
    have hf1 := Int.floor_le q
    have hf2 := Int.lt_floor_add_one q
    rw [abs_le]
    constructor <;> linarith
  rw [ht]
  calc |TransformQuantize.invert maxVal numBits ((⌊q⌋ : ℤ) : ℚ) - x|
      = |(⌊q⌋ : ℚ) - q| * (maxVal / (2 ^ numBits - 1)) := by
        rw [TransformQuantize.invert, hxq]
        rw [show (⌊q⌋ : ℚ) / (2 ^ numBits - 1) * maxVal - q / (2 ^ numBits - 1) * maxVal
            = ((⌊q⌋ : ℚ) - q) * (maxVal / (2 ^ numBits - 1)) from by ring]
        rw [abs_mul, abs_of_nonneg (by positivity : (0:ℚ) ≤ maxVal / (2 ^ numBits - 1))]
    _ ≤ 1 * (maxVal / (2 ^ numBits - 1)) :=
        mul_le_mul_of_nonneg_right habs (by positivity)
    _ = maxVal / (2 ^ numBits - 1) := one_mul _

theorem metric_roundtrip (m x : ℚ) (hm : 0 < m) :
    |TransformMetricConversion.invert m
        ((TransformMetricConversion.transform m x : ℤ) : ℚ) - x| ≤ 1 / m := by
  have key := pyint_abs_le (x * m)
  calc |TransformMetricConversion.invert m ((TransformMetricConversion.transform m x : ℤ) : ℚ) - x|
      = |(pyint (x * m) : ℚ) - x * m| * (1 / m) := by
        rw [TransformMetricConversion.invert, TransformMetricConversion.transform]
        rw [show (pyint (x * m) : ℚ) / m - x = ((pyint (x * m) : ℚ) - x * m) * (1 / m) from by
          field_simp
          ring]
        rw [abs_mul, abs_of_nonneg (by positivity : (0:ℚ) ≤ 1 / m)]
    _ ≤ 1 * (1 / m) := mul_le_mul_of_nonneg_right key (by positivity)
    _ = 1 / m := one_mul _

theorem bitfield_transformAux_ok (choices l : List ℕ) (bf : ℕ)
    (h : ∀ c ∈ l, c ∈ choices) :
    ∃ w, TransformBitfield.transformAux choices bf l = .ok w ∧
      ∀ b, w.testBit b = (bf.testBit b || decide (b ∈ l)) := by
  induction l generalizing bf with
  | nil => exact ⟨bf, rfl, by simp⟩
  | cons c rest ih =>
    have hc : c ∈ choices := h c (by simp)
    obtain ⟨w, hw, hbit⟩ := ih (bf ||| (1 <<< c)) (fun d hd => h d (by simp [hd]))
    refine ⟨w, ?_, ?_⟩
    · rw [TransformBitfield.transformAux, if_pos hc]
      exact hw
    · intro b
      rw [hbit b, Nat.one_shiftLeft, Nat.testBit_or]
      by_cases hbc : b = c
      · subst hbc
        simp [Nat.testBit_two_pow_self]
      · simp [Nat.testBit_two_pow_of_ne (Ne.symm hbc), hbc]

theorem and_shift_ne_zero (w b : ℕ) : ((w &&& (1 <<< b)) != 0) = w.testBit b := by
  rw [Nat.one_shiftLeft, Nat.and_two_pow]
  cases h : w.testBit b
  · simp
  · simp [bne_iff_ne]

theorem bitfield_roundtrip (choices value : List ℕ) (h : ∀ c ∈ value, c ∈ choices) :
    ∃ w, TransformBitfield.transform choices value = .ok w ∧
      ∀ b, b ∈ TransformBitfield.invert choices w ↔ b ∈ value := by
  obtain ⟨w, hw, hbit⟩ := bitfield_transformAux_ok choices value 0 h
  refine ⟨w, hw, fun b => ?_⟩
  rw [TransformBitfield.invert, List.mem_filter, and_shift_ne_zero, hbit b]
  simp only [Nat.zero_testBit, Bool.false_or, decide_eq_true_eq]
  exact ⟨fun hp => hp.2, fun hb => ⟨h b hb, hb⟩⟩

theorem linearnorm_eval_top (val imin imax omin omax : ℚ)
    (h1 : imin ≤ imax) (h2 : omin ≤ omax) (hv : val = imax) (h3 : imin ≤ val) :
    linearnorm val imin imax omin omax = .ok omax := by
  unfold linearnorm
  rw [if_neg (by simp only [not_or, not_lt]; exact ⟨h1, h2⟩),
      if_neg (by simp only [not_or, not_lt]; exact ⟨h3, hv ▸ le_refl imax⟩),
      if_pos hv]

theorem linearnorm_eval_bot (val imin imax omin omax : ℚ)
    (h1 : imin ≤ imax) (h2 : omin ≤ omax) (hv : val = imin) (hne : val ≠ imax) :
    linearnorm val imin imax omin omax = .ok omin := by
  unfold linearnorm
  rw [if_neg (by simp only [not_or, not_lt]; exact ⟨h1, h2⟩),
      if_neg (by simp only [not_or, not_lt]; exact ⟨hv ▸ le_refl imin, hv ▸ h1⟩),
      if_neg hne, if_pos hv]

theorem linearnorm_eval_mid (val imin imax omin omax : ℚ)
    (h1 : imin ≤ imax) (h2 : omin ≤ omax) (h3 : imin ≤ val) (h4 : val ≤ imax)
    (hne1 : val ≠ imax) (hne2 : val ≠ imin) :
    linearnorm val imin imax omin omax =
      .ok ((omax - omin + 1) / (imax - imin + 1) * (val - imin) + omin) := by
  unfold linearnorm
  rw [if_neg (by simp only [not_or, not_lt]; exact ⟨h1, h2⟩),
      if_neg (by simp only [not_or, not_lt]; exact ⟨h3, h4⟩),
      if_neg hne1, if_neg hne2, min_eq_left h4, max_eq_left h3]

theorem linearnorm_roundtrip (umin umax hmin hmax : ℤ) (x : ℚ)
    (hu : umin < umax) (h0 : 0 ≤ hmin) (hh : hmin < hmax)
    (hx1 : (umin : ℚ) ≤ x) (hx2 : x ≤ (umax : ℚ)) :
    ∃ (t : ℤ) (y : ℚ),
      TransformLinearNorm.transform umin umax hmin hmax x = .ok t ∧
      TransformLinearNorm.invert umin umax hmin hmax (t : ℚ) = .ok y ∧
      |y - x| ≤ ((umax : ℚ) - umin + 1) / ((hmax : ℚ) - hmin + 1) := by
  have huQ : (umin : ℚ) ≤ umax := by exact_mod_cast hu.le
  have hhQ : (hmin : ℚ) ≤ hmax := by exact_mod_cast hh.le
  have hhQ' : (hmin : ℚ) < hmax := by exact_mod_cast hh
  have h0Q : (0 : ℚ) ≤ hmin := by exact_mod_cast h0
  have hUpos : (0 : ℚ) < (umax : ℚ) - umin + 1 := by
    have : (umin : ℚ) < umax := by exact_mod_cast hu
    linarith
  have hHpos : (0 : ℚ) < (hmax : ℚ) - hmin + 1 := by linarith
  have htolpos : 0 ≤ ((umax : ℚ) - umin + 1) / ((hmax : ℚ) - hmin + 1) :=
    le_of_lt (div_pos hUpos hHpos)
  by_cases hxmax : x = (umax : ℚ)
  · refine ⟨hmax, (umax : ℚ), ?_, ?_, ?_⟩
    · rw [TransformLinearNorm.transform, linearnorm_eval_top x _ _ _ _ huQ hhQ hxmax hx1]
      simp only [Except.map]
      rw [pyint_of_nonneg (by linarith : (0:ℚ) ≤ (hmax : ℚ)), Int.floor_intCast]
    · rw [TransformLinearNorm.invert, linearnorm_eval_top _ _ _ _ _ hhQ huQ rfl hhQ]
    · rw [hxmax]
      simpa using htolpos
  · by_cases hxmin : x = (umin : ℚ)
    · refine ⟨hmin, (umin : ℚ), ?_, ?_, ?_⟩
      · rw [TransformLinearNorm.transform, linearnorm_eval_bot x _ _ _ _ huQ hhQ hxmin hxmax]
        simp only [Except.map]
        rw [pyint_of_nonneg h0Q, Int.floor_intCast]
      · rw [TransformLinearNorm.invert,
          linearnorm_eval_bot _ _ _ _ _ hhQ huQ rfl (ne_of_lt hhQ')]
      · rw [hxmin]
        simpa using htolpos
    · set y0 : ℚ := ((hmax : ℚ) - hmin + 1) / ((umax : ℚ) - umin + 1) * (x - umin) + hmin
        with hy0
      have hxlt : x < (umax : ℚ) := lt_of_le_of_ne hx2 hxmax
      have hxgt : (umin : ℚ) < x := lt_of_le_of_ne hx1 (fun h => hxmin h.symm)
      have hgx : 0 < ((hmax : ℚ) - hmin + 1) / ((umax : ℚ) - umin + 1) * (x - umin) :=
        mul_pos (div_pos hHpos hUpos) (by linarith)
      have hy0min : (hmin : ℚ) < y0 := by
        rw [hy0]
        linarith
      have hy0nonneg : (0 : ℚ) ≤ y0 := by linarith
      have hstep : ((hmax : ℚ) - hmin + 1) / ((umax : ℚ) - umin + 1) * (x - umin)
          < (hmax : ℚ) - hmin + 1 := by
        rw [div_mul_eq_mul_div, div_lt_iff hUpos]
        nlinarith
      have hy0max : y0 < (hmax : ℚ) + 1 := by
        rw [hy0]
        linarith
      have hfle : ((⌊y0⌋ : ℚ)) ≤ y0 := Int.floor_le y0
      have hflt : y0 < ⌊y0⌋ + 1 := Int.lt_floor_add_one y0
      have htminZ : hmin ≤ ⌊y0⌋ := Int.le_floor.mpr hy0min.le
      have htmaxZ : ⌊y0⌋ ≤ hmax := by
        have : ⌊y0⌋ < hmax + 1 := by
          rw [Int.floor_lt]
          push_cast
          linarith
        omega
      have htmin : (hmin : ℚ) ≤ (⌊y0⌋ : ℚ) := by exact_mod_cast htminZ
      have htmax : ((⌊y0⌋ : ℚ)) ≤ (hmax : ℚ) := by exact_mod_cast htmaxZ
      have htrans : TransformLinearNorm.transform umin umax hmin hmax x = .ok ⌊y0⌋ := by
        rw [TransformLinearNorm.transform,
          linearnorm_eval_mid x _ _ _ _ huQ hhQ hx1 hx2 hxmax hxmin]
        simp only [Except.map]
        rw [← hy0, pyint_of_nonneg hy0nonneg]
      by_cases hthi : ⌊y0⌋ = hmax
      · refine ⟨⌊y0⌋, (umax : ℚ), htrans, ?_, ?_⟩
        · rw [TransformLinearNorm.invert,
            linearnorm_eval_top _ _ _ _ _ hhQ huQ (by exact_mod_cast hthi) htmin]
        · have hylow : (hmax : ℚ) ≤ y0 := by
            rw [← hthi]
            exact hfle
          have hkey : ((hmax : ℚ) - hmin) * ((umax : ℚ) - umin + 1)
              ≤ ((hmax : ℚ) - hmin + 1) * (x - umin) := by
            have : (hmax : ℚ) - hmin
                ≤ ((hmax : ℚ) - hmin + 1) / ((umax : ℚ) - umin + 1) * (x - umin) := by
              rw [hy0] at hylow
              linarith
            rw [div_mul_eq_mul_div, le_div_iff hUpos] at this
            linarith
          rw [abs_of_nonneg (by linarith : (0:ℚ) ≤ (umax : ℚ) - x), le_div_iff hHpos]
          nlinarith
      · by_cases htlo : ⌊y0⌋ = hmin
        · refine ⟨⌊y0⌋, (umin : ℚ), htrans, ?_, ?_⟩
          · rw [TransformLinearNorm.invert,
              linearnorm_eval_bot _ _ _ _ _ hhQ huQ (by exact_mod_cast htlo)
                (by exact_mod_cast fun h => hthi (by exact_mod_cast h))]
          · have hyhigh : y0 < (hmin : ℚ) + 1 := by
              have : ((⌊y0⌋ : ℚ)) = (hmin : ℚ) := by exact_mod_cast htlo
              linarith
            have hkey : ((hmax : ℚ) - hmin + 1) * (x - umin) < (umax : ℚ) - umin + 1 := by
              have : ((hmax : ℚ) - hmin + 1) / ((umax : ℚ) - umin + 1) * (x - umin) < 1 := by
                rw [hy0] at hyhigh
                linarith
              rw [div_mul_eq_mul_div, div_lt_iff hUpos] at this
              linarith
            rw [abs_of_nonpos (by linarith : (umin : ℚ) - x ≤ 0), le_div_iff hHpos]
            nlinarith
        · refine ⟨⌊y0⌋,
            ((umax : ℚ) - umin + 1) / ((hmax : ℚ) - hmin + 1) * ((⌊y0⌋ : ℚ) - hmin) + umin,
            htrans, ?_, ?_⟩
          · rw [TransformLinearNorm.invert,
              linearnorm_eval_mid _ _ _ _ _ hhQ huQ htmin htmax
                (by exact_mod_cast fun h => hthi (by exact_mod_cast h))
                (by exact_mod_cast fun h => htlo (by exact_mod_cast h))]
          · have hxid : ((umax : ℚ) - umin + 1) / ((hmax : ℚ) - hmin + 1) * (y0 - hmin) + umin
                = x := by
              rw [hy0]
              field_simp
              ring
            have hdiff : ((umax : ℚ) - umin + 1) / ((hmax : ℚ) - hmin + 1) * ((⌊y0⌋ : ℚ) - hmin)
                + umin - x
                = ((⌊y0⌋ : ℚ) - y0) * (((umax : ℚ) - umin + 1) / ((hmax : ℚ) - hmin + 1)) := by
              rw [← hxid]
              ring
            have habs : |(⌊y0⌋ : ℚ) - y0| ≤ 1 := by
              rw [abs_le]
              constructor <;> linarith
            rw [hdiff, abs_mul, abs_of_nonneg htolpos]
            calc |(⌊y0⌋ : ℚ) - y0| * (((umax : ℚ) - umin + 1) / ((hmax : ℚ) - hmin + 1))
                ≤ 1 * (((umax : ℚ) - umin + 1) / ((hmax : ℚ) - hmin + 1)) :=
                  mul_le_mul_of_nonneg_right habs htolpos
              _ = ((umax : ℚ) - umin + 1) / ((hmax : ℚ) - hmin + 1) := one_mul _

/-- Claim C2: for every transformer kind (bitfield, linear-normalization,
metric-scale, quantization, enumerated-selection) and every value in the
transformer's declared valid domain, `invert (transform x)` returns `x`
up to the transformer's quantization/truncation step: exactly for
bitfield (as a set of enabled choices) and selection, within one
quantization step for quantize (`max_val / (2^num_bits - 1)`), metric
(`1 / multiplier`) and linear normalization (`(umax - umin + 1) /
(hmax - hmin + 1)`, the declared range granularity). -/
theorem transformer_roundtrip :
    (∀ (choices value : List ℕ), (∀ c ∈ value, c ∈ choices) →
      ∃ w, TransformBitfield.transform choices value = .ok w ∧
        ∀ b, b ∈ TransformBitfield.invert choices w ↔ b ∈ value) ∧
    (∀ (umin umax hmin hmax : ℤ) (x : ℚ), umin < umax → 0 ≤ hmin → hmin < hmax →
      (umin : ℚ) ≤ x → x ≤ (umax : ℚ) →
      ∃ (t : ℤ) (y : ℚ),
        TransformLinearNorm.transform umin umax hmin hmax x = .ok t ∧
        TransformLinearNorm.invert umin umax hmin hmax (t : ℚ) = .ok y ∧
        |y - x| ≤ ((umax : ℚ) - umin + 1) / ((hmax : ℚ) - hmin + 1)) ∧
    (∀ (m x : ℚ), 0 < m →
      |TransformMetricConversion.invert m
          ((TransformMetricConversion.transform m x : ℤ) : ℚ) - x| ≤ 1 / m) ∧
    (∀ (maxVal : ℚ) (numBits : ℕ) (x : ℚ),
      0 < maxVal → 1 ≤ numBits → 0 ≤ x → x ≤ maxVal →
      |TransformQuantize.invert maxVal numBits
          ((TransformQuantize.transform maxVal numBits x : ℤ) : ℚ) - x|
        ≤ maxVal / (2 ^ numBits - 1)) ∧
    (∀ (choices : List ℤ) (v : ℤ), v ∈ choices →
      TransformSelection.transform choices v = .ok v ∧
      TransformSelection.invert choices v = v) := by
  refine ⟨bitfield_roundtrip, linearnorm_roundtrip, metric_roundtrip,
    quantize_roundtrip, fun choices v hv => ⟨?_, rfl⟩⟩
  rw [TransformSelection.transform, if_pos hv]

/-- Concrete instantiation of `transformer_roundtrip`: the default
percent-style linear norm (0,1023)→(0,4095) at x = 1/2, a kHz metric
multiplier, an 8-bit quantizer on [0,100], the bitfield {0,2} over
choices {0,1,2}, and selection 1 of {0,1,2}. -/
theorem transformer_roundtrip_witness :
    (∃ w, TransformBitfield.transform [0, 1, 2] [0, 2] = .ok w ∧
      ∀ b, b ∈ TransformBitfield.invert [0, 1, 2] w ↔ b ∈ [0, 2]) ∧
    (∃ (t : ℤ) (y : ℚ),
      TransformLinearNorm.transform ((0 : ℤ) : ℚ) ((1023 : ℤ) : ℚ) ((0 : ℤ) : ℚ)
          ((4095 : ℤ) : ℚ) (1 / 2) = .ok t ∧
      TransformLinearNorm.invert ((0 : ℤ) : ℚ) ((1023 : ℤ) : ℚ) ((0 : ℤ) : ℚ)
          ((4095 : ℤ) : ℚ) (t : ℚ) = .ok y ∧
      |y - 1 / 2| ≤ (((1023 : ℤ) : ℚ) - ((0 : ℤ) : ℚ) + 1) /
          (((4095 : ℤ) : ℚ) - ((0 : ℤ) : ℚ) + 1)) ∧
    |TransformMetricConversion.invert 1000
        ((TransformMetricConversion.transform 1000 (3 / 2) : ℤ) : ℚ) - 3 / 2| ≤ 1 / 1000 ∧
    |TransformQuantize.invert 100 8 ((TransformQuantize.transform 100 8 40 : ℤ) : ℚ) - 40|
        ≤ 100 / (2 ^ 8 - 1) ∧
    (TransformSelection.transform [0, 1, 2] 1 = .ok 1 ∧
      TransformSelection.invert [0, 1, 2] 1 = 1) := by
  exact ⟨transformer_roundtrip.1 [0, 1, 2] [0, 2] (by decide),
    transformer_roundtrip.2.1 0 1023 0 4095 (1 / 2) (by norm_num) (by norm_num) (by norm_num)
      (by norm_num) (by norm_num),
    transformer_roundtrip.2.2.1 1000 (3 / 2) (by norm_num),
    transformer_roundtrip.2.2.2.1 100 8 40 (by norm_num) (by norm_num) (by norm_num)
      (by norm_num),
    transformer_roundtrip.2.2.2.2 [0, 1, 2] 1 (by decide)⟩

/- ===================== version.py ===================== -/

structure SemanticVersion where
  major : ℤ
  minor : ℤ
  patch : ℤ
  deriving DecidableEq, Repr

/-- `SemanticVersion.compare`: negative if `ver1 < ver2`, zero if equal,
positive if `ver1 > ver2`, comparing major, then minor, then patch. -/
def SemanticVersion.compare (ver1 ver2 : SemanticVersion) : ℤ :=
  if ver1.major < ver2.major then -1
  else if ver1.major > ver2.major then 1
  else if ver1.minor < ver2.minor then -1
  else if ver1.minor > ver2.minor then 1
  else if ver1.patch < ver2.patch then -1
  else if ver1.patch > ver2.patch then 1
  else 0

/-- Numeric strict order on versions: major first, then minor, then
patch — the order the specification describes. -/
def SemanticVersion.lt (a b : SemanticVersion) : Prop :=
  a.major < b.major ∨ (a.major = b.major ∧
    (a.minor < b.minor ∨ (a.minor = b.minor ∧ a.patch < b.patch)))

theorem compare_neg_of_lt (a b : SemanticVersion) (h : SemanticVersion.lt a b) :
    SemanticVersion.compare a b < 0 := by
  unfold SemanticVersion.lt at h
  unfold SemanticVersion.compare
  split_ifs <;> omega

/- ============ register_specs.py / register_api.py ============ -/

/-- A dynamically typed Python value flowing through the register layer. -/
inductive PyVal where
  | int (z : ℤ)
  | float (q : ℚ)
  | str (s : String)
  | bytes (bs : List ℕ)
  | list (vs : List PyVal)

/-- The exceptions of the register layer, with the data their messages
carry: `MinimumAPIVersion` (base.py), the `ValueError` of
`ValidateRange.validate` (register name, offered value and valid range),
generic `ValueError`s from transformers, and `TypeError`s from applying
numeric operations to non-numbers. -/
inductive RegErr where
  | minimumAPIVersion (msg : String)
  | rangeError (regName : String) (value minVal maxVal : ℚ)
  | valueError (msg : String)
  | typeError (msg : String)

/-- `float(value)` for values reaching the numeric transformers. -/
def PyVal.toFloat : PyVal → Except RegErr ℚ
  | .int z => .ok (z : ℚ)
  | .float q => .ok q
  | _ => .error (.typeError "argument must be a number")

/-- The one validator kind of the spec table (`Validators.RANGE`). -/
inductive Validator where
  | range (minVal maxVal : ℚ)

/-- `ValidateRange.validate`: raise if the value falls outside
`[min_val, max_val]`, naming the register and the valid range. -/
def Validator.validate (name : String) (value : PyVal) : Validator → Except RegErr Unit
  | .range minVal maxVal => do
    let q ← value.toFloat
    if minVal > q ∨ maxVal < q then .error (.rangeError name q minVal maxVal)
    else .ok ()

/-- The transformer kinds of the spec table, with their declared
parameters (`choices` dicts are carried as their key lists in insertion
order). -/
inductive Transformer where
  | bitfield (choices : List ℕ)
  | linearnorm (userrangeMin userrangeMax hwrangeMin hwrangeMax : ℚ)
  | metric (multiplier : ℚ)
  | quantize (maxVal : ℚ) (numBits : ℕ)
  | selection (choices : List ℤ)

/-- `transform` of each transformer class lifted to dynamic values.
Negative bit positions do not occur in the table, so naturals carry the
bitfield arithmetic. -/
def Transformer.transformVal (name : String) (t : Transformer) (value : PyVal) :
    Except RegErr PyVal :=
  match t with
  | .quantize maxVal numBits => do
    let q ← value.toFloat
    .ok (.int (TransformQuantize.transform maxVal numBits q))
  | .metric m => do
    let q ← value.toFloat
    .ok (.int (TransformMetricConversion.transform m q))
  | .linearnorm a b c d => do
    let q ← value.toFloat
    match TransformLinearNorm.transform a b c d q with
    | .ok t2 => .ok (.int t2)
    | .error e => .error (.valueError e)
  | .bitfield choices =>
    match value with
    | .list vs => do
      let ns ← vs.mapM (fun v => match v with
        | .int z => Except.ok z.toNat
        | _ => Except.error (RegErr.typeError "unsupported operand type for shift"))
      match TransformBitfield.transform choices ns with
      | .ok w => .ok (.int (w : ℤ))
      | .error e => .error (.valueError e)
    | _ => .error (.typeError "value is not iterable")
  | .selection choices =>
    match value with
    | .int z =>
      match TransformSelection.transform choices z with
      | .ok w => .ok (.int w)
      | .error e => .error (.valueError e)
    | _ => .error (.valueError "value is not a valid option for the register")

/-- `invert` of each transformer class lifted to dynamic values; the
numeric transformers always produce Python floats, bitfield produces the
list of enabled choices, selection passes the value through (an unknown
value only logs a warning). -/
def Transformer.invertVal (name : String) (t : Transformer) (value : PyVal) :
    Except RegErr PyVal :=
  match t with
  | .quantize maxVal numBits => do
    let q ← value.toFloat
    .ok (.float (TransformQuantize.invert maxVal numBits q))
  | .metric m => do
    let q ← value.toFloat
    .ok (.float (TransformMetricConversion.invert m q))
  | .linearnorm a b c d => do
    let q ← value.toFloat
    match TransformLinearNorm.invert a b c d q with
    | .ok y => .ok (.float y)
    | .error e => .error (.valueError e)
  | .bitfield choices =>
    match value with
    | .int z =>
      .ok (.list ((TransformBitfield.invert choices z.toNat).map (fun b => PyVal.int (b : ℤ))))
    | _ => .error (.typeError "unsupported operand type")
  | .selection _ => .ok value

/-- The hardware value types of a register spec. -/
inductive RegType where
  | int | uint | float | str | bytes
  deriving DecidableEq

/-- One part of a (possibly multipart) register. -/
structure RegPart where
  partName : String := ""
  offset : ℕ := 0
  length : ℕ := 32
  validators : List Validator := []
  transformers : List Transformer := []

/-- `RegisterSpec`: one hardware register of the static table.  The
`version` string of the table ('M.m.p') is carried parsed, as
`_check_compatibility` parses it with `split('.')` and `int`. -/
structure RegisterSpec where
  name : String
  bank : ℕ
  register : ℕ
  default : ℤ := 0
  version : SemanticVersion := ⟨0, 0, 0⟩
  type : RegType := .int
  size : ℕ := 1
  readAccess : Bool := true
  writeAccess : Bool := true
  deprecated : Bool := false
  parts : List RegPart := [{}]

/-- `RegisterSpec._handle_input_size`: a single-part register takes the
value itself; a multipart register requires a list of matching length. -/
def RegisterSpec.handleInputSize (spec : RegisterSpec) (value : PyVal) :
    Except RegErr (List PyVal) :=
  if spec.parts.length = 1 then .ok [value]
  else
    match value with
    | .list vs =>
      if vs.length = spec.parts.length then .ok vs
      else .error (.valueError (spec.name ++ " expects one value per part"))
    | _ => .error (.valueError (spec.name ++ " expects one value per part"))

/-- `RegisterSpec.validate`: run every part's validators against the
corresponding value.  (Defined by the source — but never called by it.) -/
def RegisterSpec.validate (spec : RegisterSpec) (value : PyVal) : Except RegErr Unit := do
  let values ← spec.handleInputSize value
  (spec.parts.zip values).forM (fun pv =>
    pv.1.validators.forM (fun v => v.validate spec.name pv.2))

/-- The per-part transformer chain, applied in declaration order. -/
def applyTransforms (name : String) (ts : List Transformer) (value : PyVal) :
    Except RegErr PyVal :=
  ts.foldlM (fun v t => t.transformVal name v) value

/-- The per-part inverse transformer chain, applied in declaration order. -/
def applyInverts (name : String) (ts : List Transformer) (value : PyVal) :
    Except RegErr PyVal :=
  ts.foldlM (fun v t => t.invertVal name v) value

/-- `RegisterSpec.transform`: transform each part's value and, for uint
registers, OR it into the register word at the part's bit offset (a
non-int part value raises `Invalid Type`); for other types the register
is single-part and the transformed value is the register value. -/
def RegisterSpec.transform (spec : RegisterSpec) (value : PyVal) : Except RegErr PyVal := do
  let values ← spec.handleInputSize value
  (spec.parts.zip values).foldlM (fun regValue pv => do
    let v2 ← applyTransforms spec.name pv.1.transformers pv.2
    if spec.type = RegType.uint then
      match regValue, v2 with
      | .int a, .int b => Except.ok (PyVal.int ((a.toNat ||| (b.toNat <<< pv.1.offset) : ℕ) : ℤ))
      | _, _ => Except.error (RegErr.valueError "Invalid Type. Expecting uint")
    else Except.ok v2) (PyVal.int 0)

/-- `RegisterSpec.invert`: for uint registers unpack each part by
masking `(1 << (offset + length)) - 1` and shifting; then run the
inverse transformer chain; a single-part register returns the bare
value, a multipart one the list. -/
def RegisterSpec.invert (spec : RegisterSpec) (regValue : PyVal) : Except RegErr PyVal := do
  let vals ← spec.parts.mapM (fun part => do
    let base ←
      if spec.type = RegType.uint then
        match regValue with
        | PyVal.int z =>
          Except.ok (PyVal.int
            (((z.toNat &&& ((1 <<< (part.offset + part.length)) - 1)) >>> part.offset : ℕ) : ℤ))
        | _ => Except.error (RegErr.typeError "unsupported operand type")
      else Except.ok regValue
    applyInverts spec.name part.transformers base)
  match vals with
  | [v] => Except.ok v
  | vs => Except.ok (.list vs)

/-- A wire transaction of `libregisterapi` (capi, outside src/): the
4-byte little-endian packing of `RegisterSpec.pack`/`unpack` is folded
into the carried value. -/
inductive WireOp where
  | write (bank register : ℕ) (value : PyVal) (trid : Option ℕ)
  | read (bank register : ℕ) (trid : Option ℕ)

/-- One 4-byte chunk of the NUL-right-padded string register value
(`paddedval[offset * 4:offset * 4 + 4]` with `paddedval` the value
padded with NULs to `size * 4` characters), as byte codes. -/
def strChunk (s : String) (size offset : ℕ) : List ℕ :=
  (((s.data ++ List.replicate (size * 4 - s.length) (Char.ofNat 0)).drop (offset * 4)).take 4).map
    Char.toNat

/-- `RegisterApi.set_register`: check the firmware version gate,
transform the value to the register word, then issue the raw write (one
write per 4-byte chunk for string registers).  No validator runs. -/
def set_register (fw : SemanticVersion) (spec : RegisterSpec) (value : PyVal)
    (trid : Option ℕ) : Except RegErr Unit × List WireOp :=
  if SemanticVersion.compare fw spec.version < 0 then
    (.error (.minimumAPIVersion (spec.name ++ " is not supported in firmware")), [])
  else
    match spec.transform value with
    | .error e => (.error e, [])
    | .ok regValue =>
      if spec.type = RegType.str ∨ spec.type = RegType.bytes then
        match value with
        | .str s =>
          (.ok (), (List.range spec.size).map (fun o =>
            WireOp.write spec.bank (spec.register + o) (.bytes (strChunk s spec.size o)) trid))
        | _ => (.error (.typeError "string register write modelled for string values"), [])
      else
        (.ok (), [WireOp.write spec.bank spec.register regValue trid])

/-- Python `round` at a tie: round half to even. -/
def roundHalfEven (q : ℚ) : ℤ :=
  if q - ⌊q⌋ < 1 / 2 then ⌊q⌋
  else if q - ⌊q⌋ > 1 / 2 then ⌊q⌋ + 1
  else if ⌊q⌋ % 2 = 0 then ⌊q⌋ else ⌊q⌋ + 1

/-- `round(value, 2)` on the exact rational modelling the float. -/
def pyround2 (q : ℚ) : ℚ := ((roundHalfEven (q * 100) : ℤ) : ℚ) / 100

/-- Lines 83–84 of register_api.py: a float user value is rounded to two
decimal places, everything else is returned untouched. -/
def roundUserValue : PyVal → PyVal
  | .float q => .float (pyround2 q)
  | v => v

def bytesToString (bs : List ℕ) : String := String.mk (bs.map Char.ofNat)

/-- The rstrip of trailing NUL characters of the decoded string value. -/
def stripNulls (s : String) : String :=
  String.mk ((s.data.reverse.dropWhile (fun c => c = Char.ofNat 0)).reverse)

/-- The read phase of `get_register`: one read per 4-byte chunk for
string registers (joined, decoded, NUL-stripped for `str`), a single
read otherwise.  `oracle` models `libregisterapi.read` composed with
`RegisterSpec.unpack` (the response is an opaque transport value). -/
def readRegValue (spec : RegisterSpec) (oracle : ℕ → ℕ → Option ℕ → PyVal)
    (trid : Option ℕ) : PyVal × List WireOp :=
  if spec.type = RegType.str ∨ spec.type = RegType.bytes then
    let ops := (List.range spec.size).map (fun o => WireOp.read spec.bank (spec.register + o) trid)
    let joined := (List.range spec.size).foldl (fun acc o =>
      acc ++ (match oracle spec.bank (spec.register + o) trid with
              | PyVal.bytes bs => bs
              | _ => [])) []
    (if spec.type = RegType.str then PyVal.str (stripNulls (bytesToString joined))
     else PyVal.bytes joined, ops)
  else
    (oracle spec.bank spec.register trid, [WireOp.read spec.bank spec.register trid])

/-- `RegisterApi.get_register`: version gate, raw read, unpack, inverse
transform, then round float user values to 2 decimal places. -/
def get_register (fw : SemanticVersion) (spec : RegisterSpec)
    (oracle : ℕ → ℕ → Option ℕ → PyVal) (trid : Option ℕ) :
    Except RegErr PyVal × List WireOp :=
  if SemanticVersion.compare fw spec.version < 0 then
    (.error (.minimumAPIVersion (spec.name ++ " is not supported in firmware")), [])
  else
    let ro := readRegValue spec oracle trid
    match spec.invert ro.1 with
    | .error e => (.error e, ro.2)
    | .ok value => (.ok (roundUserValue value), ro.2)

/-- Claim C3: for every register whose declared minimum firmware version
exceeds the connected firmware's reported API version (numerically:
major, then minor, then patch), both `get_register` and `set_register`
fail with the `MinimumAPIVersion` condition and issue no wire
transaction. -/
theorem register_version_gate (fw : SemanticVersion) (spec : RegisterSpec) (value : PyVal)
    (oracle : ℕ → ℕ → Option ℕ → PyVal) (trid : Option ℕ)
    (h : SemanticVersion.lt fw spec.version) :
    SemanticVersion.compare fw spec.version < 0 ∧
    set_register fw spec value trid =
      (.error (.minimumAPIVersion (spec.name ++ " is not supported in firmware")), []) ∧
    get_register fw spec oracle trid =
      (.error (.minimumAPIVersion (spec.name ++ " is not supported in firmware")), []) := by
  have hc := compare_neg_of_lt fw spec.version h
  refine ⟨hc, ?_, ?_⟩
  · unfold set_register
    rw [if_pos hc]
  · unfold get_register
    rw [if_pos hc]

/-- A register introduced in firmware 0.47.0 (as the second trigger
thresholds of the analog bank are), accessed from firmware 0.45.0. -/
def thresholdTrigger2Spec : RegisterSpec :=
  { name := "analog high_threshold_trigger_2", bank := 12, register := 10,
    version := ⟨0, 47, 0⟩, type := .uint }

theorem register_version_gate_witness :
    SemanticVersion.compare ⟨0, 45, 0⟩ thresholdTrigger2Spec.version < 0 ∧
    set_register ⟨0, 45, 0⟩ thresholdTrigger2Spec (.int 4095) none =
      (.error (.minimumAPIVersion
        (thresholdTrigger2Spec.name ++ " is not supported in firmware")), []) ∧
    get_register ⟨0, 45, 0⟩ thresholdTrigger2Spec (fun _ _ _ => .int 0) none =
      (.error (.minimumAPIVersion
        (thresholdTrigger2Spec.name ++ " is not supported in firmware")), []) :=
  register_version_gate ⟨0, 45, 0⟩ thresholdTrigger2Spec (.int 4095) (fun _ _ _ => .int 0) none
    (Or.inr ⟨rfl, Or.inl (by decide)⟩)

/-- An int register with a declared range validator [0, 10] and no
transformers. -/
def rangedIntSpec : RegisterSpec :=
  { name := "general1 ranged_reg", bank := 1, register := 5,
    parts := [{ validators := [.range 0 10] }] }

/-- Claim C5, failing input: `set_register` never invokes the declared
validators (`RegisterSpec.validate` has no caller in the repository).
Writing 11 to a register whose range validator declares [0, 10]
transforms the value and issues the wire write and reports success,
even though the register's own validator — had it been run, as
`set_register`'s docstring ("Raises: ValueError if the value is not
valid") and the declared validator table intend — rejects 11 naming the
register and the range. -/
theorem set_register_skips_validation :
    set_register ⟨1, 0, 0⟩ rangedIntSpec (.int 11) none =
      (.ok (), [WireOp.write 1 5 (.int 11) none]) ∧
    RegisterSpec.validate rangedIntSpec (.int 11) =
      .error (.rangeError "general1 ranged_reg" 11 0 10) := by
  constructor <;> rfl

theorem pyround2_close (q : ℚ) : |pyround2 q - q| ≤ 1 / 200 := by
  have h1 := Int.floor_le (q * 100)
  have h2 := Int.lt_floor_add_one (q * 100)
  have key : |((roundHalfEven (q * 100) : ℤ) : ℚ) - q * 100| ≤ 1 / 2 := by
    unfold roundHalfEven
    split_ifs <;> (rw [abs_le]; push_cast; constructor <;> linarith)
  calc |pyround2 q - q|
      = |((roundHalfEven (q * 100) : ℤ) : ℚ) - q * 100| / 100 := by
        rw [pyround2,
          show ((roundHalfEven (q * 100) : ℤ) : ℚ) / 100 - q
            = (((roundHalfEven (q * 100) : ℤ) : ℚ) - q * 100) / 100 from by ring,
          abs_div]
        norm_num
    _ ≤ (1 / 2) / 100 := (div_le_div_right (by norm_num : (0:ℚ) < 100)).mpr key
    _ = 1 / 200 := by norm_num

/-- Claim C10: whenever the user-facing value obtained by `get_register`
after unpacking and inverse transformation is a Python float, the value
returned is that float rounded to 2 decimal places — within 0.005 of the
exactly-inverted value — while a non-float value is returned unrounded. -/
theorem get_register_rounds_floats (fw : SemanticVersion) (spec : RegisterSpec)
    (oracle : ℕ → ℕ → Option ℕ → PyVal) (trid : Option ℕ)
    (hgate : ¬ SemanticVersion.compare fw spec.version < 0) :
    (∀ q : ℚ, spec.invert (readRegValue spec oracle trid).1 = .ok (.float q) →
      (get_register fw spec oracle trid).1 = .ok (.float (pyround2 q)) ∧
      |pyround2 q - q| ≤ 1 / 200) ∧
    (∀ v : PyVal, spec.invert (readRegValue spec oracle trid).1 = .ok v →
      (∀ q : ℚ, v ≠ .float q) → (get_register fw spec oracle trid).1 = .ok v) := by
  constructor
  · intro q hq
    refine ⟨?_, pyround2_close q⟩
    rw [get_register, if_neg hgate]
    simp only [hq, roundUserValue]
  · intro v hv hnf
    rw [get_register, if_neg hgate]
    simp only [hv]
    cases v with
    | float q => exact absurd rfl (hnf q)
    | int z => rfl
    | str s => rfl
    | bytes bs => rfl
    | list vs => rfl

/-- A plain float register with no transformers. -/
def floatReadSpec : RegisterSpec :=
  { name := "general1 float_reg", bank := 1, register := 9, type := .float }

theorem get_register_rounds_floats_witness :
    (get_register ⟨1, 0, 0⟩ floatReadSpec (fun _ _ _ => .float (1234 / 1000)) none).1 =
      .ok (.float (pyround2 (1234 / 1000))) ∧
    |pyround2 (1234 / 1000) - 1234 / 1000| ≤ 1 / 200 :=
  (get_register_rounds_floats ⟨1, 0, 0⟩ floatReadSpec (fun _ _ _ => .float (1234 / 1000)) none
    (by decide)).1 (1234 / 1000) rfl

/- ===================== configmap.py : cache_and_restore ===================== -/

/-- `regapi` as `cache_and_restore` sees it: a store assigning every
register (of the fixed tracker) its user-facing value; `get_register`
reads the store, `set_register` updates it. -/
def storeSet {ρ α : Type} [DecidableEq ρ] (σ : ρ → α) (r : ρ) (v : α) : ρ → α :=
  fun r2 => if r2 = r then v else σ r2

/-- `cache_and_restore(regapi, tracker_id, reglist)`: read and cache
`reglist` in order, run the guarded block; if it raises, write every
cached value back in the original list order (`for reg, cache in
zip(reglist, cache): set_register(...)`) and re-raise the same
exception.  The guarded block is arbitrary code over the register api,
modelled as the final store it leaves behind plus the exception it
raises, if any. -/
def cache_and_restore {ρ α ε : Type} [DecidableEq ρ] (reglist : List ρ)
    (body : (ρ → α) → (ρ → α) × Option ε) (σ0 : ρ → α) : (ρ → α) × Option ε :=
  let cache := reglist.map σ0
  match body σ0 with
  | (σ1, none) => (σ1, none)
  | (σ1, some e) =>
    ((reglist.zip cache).foldl (fun σ rc => storeSet σ rc.1 rc.2) σ1, some e)

theorem restore_foldl_not_mem {ρ α : Type} [DecidableEq ρ]
    (l : List (ρ × α)) (σ : ρ → α) (r : ρ) (h : ∀ p ∈ l, p.1 ≠ r) :
    (l.foldl (fun σ rc => storeSet σ rc.1 rc.2) σ) r = σ r := by
  induction l generalizing σ with
  | nil => rfl
  | cons p tl ih =>
    rw [List.foldl_cons, ih _ (fun q hq => h q (by simp [hq])), storeSet,
      if_neg (fun hc => h p (by simp) hc.symm)]

theorem restore_pairs {ρ α : Type} [DecidableEq ρ]
    (l : List ρ) (σ0 σ : ρ → α) (r : ρ) (h : r ∈ l) :
    ((l.map (fun x => (x, σ0 x))).foldl (fun σ rc => storeSet σ rc.1 rc.2) σ) r = σ0 r := by
  induction l generalizing σ with
  | nil => cases h
  | cons a tl ih =>
    simp only [List.map_cons, List.foldl_cons]
    by_cases hr : r ∈ tl
    · exact ih _ hr
    · have hra : r = a := by
        rcases List.mem_cons.mp h with h1 | h1
        · exact h1
        · exact absurd h1 hr
      subst hra
      rw [restore_foldl_not_mem]
      · simp [storeSet]
      · intro p hp
        obtain ⟨x, hx, rfl⟩ := List.mem_map.mp hp
        exact fun hc => hr (hc ▸ hx)

theorem zip_self_map {ρ α : Type} (l : List ρ) (σ0 : ρ → α) :
    l.zip (l.map σ0) = l.map (fun x => (x, σ0 x)) := by
  induction l with
  | nil => rfl
  | cons a tl ih => simp [ih]

/-- Claim C4: if any exception escapes the writes guarded by
`cache_and_restore`, every register of the guarded list is restored to
its pre-call value (written back in the original list order) and the
same exception is re-raised, so each guarded register reads back its
pre-call value afterward. -/
theorem cache_and_restore_rollback {ρ α ε : Type} [DecidableEq ρ] (reglist : List ρ)
    (body : (ρ → α) → (ρ → α) × Option ε) (σ0 : ρ → α) (e : ε)
    (hraise : (body σ0).2 = some e) :
    (cache_and_restore reglist body σ0).2 = some e ∧
    ∀ r ∈ reglist, (cache_and_restore reglist body σ0).1 r = σ0 r := by
  rcases hb : body σ0 with ⟨σ1, exc⟩
  rw [hb] at hraise
  simp only at hraise
  subst hraise
  constructor
  · unfold cache_and_restore
    rw [hb]
  · intro r hr
    unfold cache_and_restore
    rw [hb]
    simp only
    rw [zip_self_map]
    exact restore_pairs reglist σ0 σ1 r hr

theorem cache_and_restore_rollback_witness :
    (cache_and_restore [1, 2] (fun σ => (storeSet σ 1 100, some "boom"))
      (fun r : ℕ => r)).2 = some "boom" ∧
    (cache_and_restore [1, 2] (fun σ => (storeSet σ 1 100, some "boom"))
      (fun r : ℕ => r)).1 1 = 1 ∧
    (cache_and_restore [1, 2] (fun σ => (storeSet σ 1 100, some "boom"))
      (fun r : ℕ => r)).1 2 = 2 := by
  have h := cache_and_restore_rollback [1, 2] (fun σ => (storeSet σ 1 100, some "boom"))
    (fun r : ℕ => r) "boom" rfl
  exact ⟨h.1, h.2 1 (by decide), h.2 2 (by decide)⟩

/- ===================== blob_parsers.py : parse_blob ===================== -/

/-- The `Blob` namedtuple: `(version, data)`. -/
structure Blob (α : Type) where
  version : ℕ
  data : α

/-- The `ValueError`s of `parse_blob`, with the data their messages
carry: empty byte array, unregistered (type, version) pair, and the
wrapper around any exception a registered unpacker raises (which keeps
the original exception as its cause). -/
inductive BlobErr where
  | nothingToRead (btype : String)
  | noParserDefined (btype : String) (version : ℕ)
  | formatMismatch (btype : String) (version : ℕ) (cause : String)
  deriving DecidableEq, Repr

/-- `parse_blob(blob_type, context, blob_data)`: `blob_data[0]` is the
version byte, `blob_data[1:]` the payload handed to the registered
unpacker.  `parserMap` models the literal `parser_map` dict keyed by
(blob type, version); the per-version layouts themselves (struct/numpy
code) stay generic. -/
def parse_blob {γ α : Type} (parserMap : String → ℕ → Option (List ℕ → γ → Except String α))
    (btype : String) (context : γ) (blobData : List ℕ) : Except BlobErr (Blob α) :=
  match blobData with
  | [] => .error (.nothingToRead btype)
  | v :: rest =>
    match parserMap btype v with
    | none => .error (.noParserDefined btype v)
    | some pfun =>
      match pfun rest context with
      | .ok d => .ok ⟨v, d⟩
      | .error exc => .error (.formatMismatch btype v exc)

/-- Claim C6: `parse_blob` fails with "nothing to read" on an empty byte
array, with "no parser defined" on a (type, version byte) pair with no
registered unpacker, and wraps any exception a registered unpacker
raises into the single "data doesn't match this version's format" error
carrying the original exception as its cause. -/
theorem parse_blob_error_taxonomy {γ α : Type}
    (parserMap : String → ℕ → Option (List ℕ → γ → Except String α))
    (btype : String) (context : γ) :
    (parse_blob parserMap btype context [] = .error (.nothingToRead btype)) ∧
    (∀ (v : ℕ) (rest : List ℕ), parserMap btype v = none →
      parse_blob parserMap btype context (v :: rest) = .error (.noParserDefined btype v)) ∧
    (∀ (v : ℕ) (rest : List ℕ) (pfun : List ℕ → γ → Except String α) (exc : String),
      parserMap btype v = some pfun → pfun rest context = .error exc →
      parse_blob parserMap btype context (v :: rest) =
        .error (.formatMismatch btype v exc)) := by
  refine ⟨rfl, ?_, ?_⟩
  · intro v rest h
    simp [parse_blob, h]
  · intro v rest pfun exc h1 h2
    simp [parse_blob, h1, h2]

/-- A miniature parser table: only version 2 is registered, and its
unpacker requires a 4-byte payload. -/
def demoParserMap : String → ℕ → Option (List ℕ → Unit → Except String ℕ) :=
  fun _ v =>
    if v = 2 then
      some (fun payload _ =>
        if payload.length = 4 then .ok payload.length else .error "unpack requires more data")
    else none

theorem parse_blob_error_taxonomy_witness :
    parse_blob demoParserMap "CALIBRATION" () [] =
      .error (.nothingToRead "CALIBRATION") ∧
    parse_blob demoParserMap "CALIBRATION" () [9, 0] =
      .error (.noParserDefined "CALIBRATION" 9) ∧
    parse_blob demoParserMap "CALIBRATION" () [2, 1] =
      .error (.formatMismatch "CALIBRATION" 2 "unpack requires more data") := by
  have h := parse_blob_error_taxonomy demoParserMap "CALIBRATION" ()
  exact ⟨h.1, h.2.1 9 [0] rfl, h.2.2 2 [1] _ "unpack requires more data" rfl rfl⟩

/- ===================== packet.py ===================== -/

def PacketType.READ : ℕ := 0
def PacketType.WRITE : ℕ := 1
def PacketType.STREAM : ℕ := 2
def PacketType.ERROR : ℕ := 3
def PacketType.HIGH_PRIORITY_STREAM : ℕ := 5
def PacketType.ISP_WRITE : ℕ := 10
def PacketType.ISP_READ : ℕ := 11

/-- `PacketMetadataV2`: the 16-bit little-endian routing/control word,
with LSB-first bitfields src_id:4, dst_id:4, pkttype:7, ext:1.  The
buffer bytes `b0, b1` at the metadata offset give `word = b0 + 256*b1`
(`struct.unpack_from` of a `<H`). -/
structure PacketMetadataV2 where
  word : ℕ

def PacketMetadataV2.src_id (m : PacketMetadataV2) : ℕ := m.word % 16

def PacketMetadataV2.dst_id (m : PacketMetadataV2) : ℕ := m.word / 16 % 16

def PacketMetadataV2.pkttype (m : PacketMetadataV2) : ℕ := m.word / 256 % 128

def PacketMetadataV2.ext (m : PacketMetadataV2) : ℕ := m.word / 32768 % 2

def PacketMetadataV2.stream (m : PacketMetadataV2) : Bool :=
  m.pkttype == PacketType.STREAM || m.pkttype == PacketType.HIGH_PRIORITY_STREAM

def PacketMetadataV2.error (m : PacketMetadataV2) : Bool :=
  m.pkttype == PacketType.ERROR

def PacketMetadataV2.header_len (m : PacketMetadataV2) : ℕ :=
  if m.stream then 1 else 2

/-- `PublicPacketMetadata`: stream/priority inferred from the leading
type byte alone. -/
structure PublicPacketMetadata where
  isStream : Bool
  isHighPriority : Bool

def PublicPacketMetadata.ofByte (b0 : ℕ) : PublicPacketMetadata :=
  let s := (b0 &&& 0xa0 != 0x80) && (b0 != 0xa1) && (b0 != 0xae)
  ⟨s, !s || (b0 == 0xa3) || (b0 == 0x02)⟩

/-- The closed set of metadata variants a V3 classification can attach. -/
inductive PacketMetadata where
  | v2 (m : PacketMetadataV2)
  | pub (m : PublicPacketMetadata)

def PacketMetadata.stream : PacketMetadata → Bool
  | .v2 m => m.stream
  | .pub m => m.isStream

def PacketMetadata.src_id : PacketMetadata → ℕ
  | .v2 m => m.src_id
  | .pub _ => 0

def PacketMetadata.header_len : PacketMetadata → ℕ
  | .v2 m => m.header_len
  | .pub _ => 1

/-- The `Packet` view: buffer, metadata, and the header offset (the
factory's `metadata_length`, the bytes consumed before the header). -/
structure Packet where
  packetData : List ℕ
  metadata : PacketMetadata
  headerOffset : ℕ

def Packet.header (p : Packet) : List ℕ :=
  ((p.packetData.drop p.headerOffset).take p.metadata.header_len)

def Packet.payload (p : Packet) : List ℕ :=
  p.packetData.drop (p.headerOffset + p.metadata.header_len)

/-- `PacketV2inV3Factory.construct_from_raw`: metadata is the `<H` word
unpacked at offset 1 (after the 0xa0 encapsulation byte); the header
offset is its `metadata_length` = 3.  A buffer too short for the word is
a `struct.error` (`none`). -/
def PacketV2inV3Factory.construct_from_raw (packetData : List ℕ) : Option Packet :=
  match packetData with
  | _ :: b0 :: b1 :: _ => some ⟨packetData, .v2 ⟨b0 + 256 * b1⟩, 3⟩
  | _ => none

/-- `PublicPacketFactory.construct_from_raw`: metadata inferred from the
leading byte, header offset 0 (the type byte itself is the header). -/
def PublicPacketFactory.construct_from_raw (packetData : List ℕ) : Option Packet :=
  match packetData with
  | b0 :: _ => some ⟨packetData, .pub (PublicPacketMetadata.ofByte b0), 0⟩
  | [] => none

/-- `PacketV3Factory.construct_from_raw`: an 0xa0 prefix selects the
encapsulated V2-in-V3 form, anything else the public form. -/
def PacketV3Factory.construct_from_raw (packetData : List ℕ) : Option Packet :=
  match packetData with
  | [] => none
  | b0 :: _ =>
    if b0 = 0xa0 then PacketV2inV3Factory.construct_from_raw packetData
    else PublicPacketFactory.construct_from_raw packetData

/-- Claim C7: a raw buffer `0xA0 || routing word || payload` whose
2-byte little-endian routing/control word has the 7-bit packet-type
field equal to STREAM and the 4-bit source-id field equal to 3
classifies as a Packet whose metadata reports a stream packet from
source id 3, with 3 bytes consumed for the metadata (header offset 3). -/
theorem packet_classification_v2inv3 (b0 b1 : ℕ) (payload : List ℕ)
    (hb0 : b0 < 256) (hb1 : b1 < 256)
    (hpkttype : (b0 + 256 * b1) / 256 % 128 = PacketType.STREAM)
    (hsrc : (b0 + 256 * b1) % 16 = 3) :
    ∃ p : Packet,
      PacketV3Factory.construct_from_raw (0xa0 :: b0 :: b1 :: payload) = some p ∧
      p.metadata.stream = true ∧ p.metadata.src_id = 3 ∧ p.headerOffset = 3 := by
  refine ⟨⟨0xa0 :: b0 :: b1 :: payload, .v2 ⟨b0 + 256 * b1⟩, 3⟩, rfl, ?_, ?_, rfl⟩
  · simp [PacketMetadata.stream, PacketMetadataV2.stream, PacketMetadataV2.pkttype,
      hpkttype, PacketType.STREAM]
  · simp [PacketMetadata.src_id, PacketMetadataV2.src_id, hsrc]

theorem packet_classification_v2inv3_witness :
    ∃ p : Packet,
      PacketV3Factory.construct_from_raw (0xa0 :: 0x03 :: 0x02 :: [0xab]) = some p ∧
      p.metadata.stream = true ∧ p.metadata.src_id = 3 ∧ p.headerOffset = 3 :=
  packet_classification_v2inv3 0x03 0x02 [0xab] (by decide) (by decide) (by decide) (by decide)

/- ===================== analog.py ===================== -/

def MAX_WAIT_TIME_S : ℕ := 3

def AnalogChannelSelection.RINGDOWN : ℕ := 0
def AnalogChannelSelection.SPARE_1 : ℕ := 6
def AnalogChannelSelection.SPARE_2 : ℕ := 7
def AnalogChannelSelection.SPARE_1_AND_SPARE_2 : ℕ := 8

def ErrorType.COLLECTION_ERROR : ℕ := 0
def ErrorType.TIMEOUT_ERROR : ℕ := 1
def ErrorType.WINDOW_MEGASAMPLE_TRIGGER_ERROR : ℕ := 2
def ErrorType.CHANNEL_BUSY : ℕ := 3

/-- The exceptions an analog collection can dispatch through its error
callback: a plain `AnalogError` message or an `AnalogRuntimeError` with
its device error type, tracker, and optional channel. -/
inductive AnalogErr where
  | analogError (msg : String)
  | runtimeError (errorType trId : ℕ) (chan : Option ℕ)
  deriving DecidableEq, Repr

/-- The payload handed to the `done_cb` by `_finalize`, per mode. -/
inductive DoneResult where
  | window (d : List (ℕ × (ℚ × ℚ × ℕ)))
  | timeseries (d : List (ℕ × List ℕ))
  | voltages (vs : List ℚ)
  deriving DecidableEq, Repr

/-- One `AnalogCollection` session's mutable state, as set up by
`sample` and mutated by the stream handlers.  `notified` records that
the timeout condition variable was signalled (`stop` or the final
`notify`); `doneResults` records the `done_cb` invocation; dicts are
insertion-ordered association lists. -/
structure AnalogState where
  allTrackers : List ℕ
  expectedTrackers : List ℕ
  expectedChannels : List ℕ
  windowData : List (ℕ × (ℚ × ℚ × ℕ)) := []
  timeseriesData : List (ℕ × List ℕ) := []
  channel : ℕ
  sampleResolution : ℕ := 12
  adcReferenceVoltage : ℚ := 33 / 10
  megasampling : Bool := false
  error : Option AnalogErr := none
  notified : Bool := false
  doneResults : Option DoneResult := none
  nextTrackerStarts : ℕ := 0

/-- Python dict update: replace in place if the key exists, else append. -/
def assocSet {α : Type} (l : List (ℕ × α)) (k : ℕ) (v : α) : List (ℕ × α) :=
  if l.any (fun p => p.1 == k) then l.map (fun p => if p.1 == k then (k, v) else p)
  else l ++ [(k, v)]

/-- `_adc_result_to_voltage`: `result / (2**resolution - 1) * vref`. -/
def adcResultToVoltage (vref : ℚ) (resolution : ℕ) (result : ℕ) : ℚ :=
  (result : ℚ) / (2 ^ resolution - 1) * vref

/-- `stop()`: notify the timeout condition variable. -/
def stopNotify (s : AnalogState) : AnalogState := { s with notified := true }

/-- `_finalize`: deliver the accumulated results to the done callback —
window data when megasampling, the timeseries dict for ringdown, else
the single remaining tracker's samples converted to voltages
(`popitem` takes the last dict entry). -/
def finalize (s : AnalogState) : AnalogState :=
  if s.megasampling then { s with doneResults := some (.window s.windowData) }
  else if s.channel = AnalogChannelSelection.RINGDOWN then
    { s with doneResults := some (.timeseries s.timeseriesData) }
  else
    match s.timeseriesData.getLast? with
    | some tr =>
      { s with doneResults := some (.voltages (tr.2.map
          (adcResultToVoltage s.adcReferenceVoltage s.sampleResolution))) }
    | none => s

/-- `_handle_end_of_analog_stream`: drop the tracker from the pending
set (an unexpected end of collection returns); if trackers remain,
spawn a thread to configure the next one; otherwise notify the watchdog
and finalize. -/
def handleEndOfAnalogStream (s : AnalogState) (trackerId : ℕ) : AnalogState :=
  if trackerId ∈ s.expectedTrackers then
    let s2 := { s with expectedTrackers := s.expectedTrackers.erase trackerId }
    if s2.expectedTrackers ≠ [] then
      { s2 with nextTrackerStarts := s2.nextTrackerStarts + 1 }
    else
      finalize { s2 with notified := true }
  else s

/-- `_handle_end_of_channel_stream`: drop the channel from the pending
set (an unexpected end of stream returns); only when no channels remain
does the whole analog stream end. -/
def handleEndOfChannelStream (s : AnalogState) (trackerId channelId : ℕ) : AnalogState :=
  if channelId ∈ s.expectedChannels then
    let s2 := { s with expectedChannels := s.expectedChannels.erase channelId }
    if s2.expectedChannels ≠ [] then s2
    else handleEndOfAnalogStream s2 trackerId
  else s

/-- `_handle_analog_channel_window_stream`: record the channel's window
summary as voltages (default 12-bit resolution) and close the channel. -/
def handleAnalogChannelWindowStream (s : AnalogState)
    (trackerId channelId maxval minval capturecount : ℕ) : AnalogState :=
  let entry := (adcResultToVoltage s.adcReferenceVoltage 12 maxval,
    adcResultToVoltage s.adcReferenceVoltage 12 minval, capturecount)
  let s2 := { s with windowData := assocSet s.windowData channelId entry }
  handleEndOfChannelStream s2 trackerId channelId

/-- `_handle_channel_error_stream`: a trigger-threshold error records a
zeroed placeholder for the channel and goes through the normal
end-of-channel pipeline (other channels may still detect a signal); any
other channel error records an `AnalogRuntimeError` on the session and
stops it. -/
def handleChannelErrorStream (s : AnalogState) (trackerId channelId errorValue : ℕ) :
    AnalogState :=
  if errorValue = ErrorType.WINDOW_MEGASAMPLE_TRIGGER_ERROR then
    let s2 := { s with windowData := assocSet s.windowData channelId (0, 0, 0) }
    handleEndOfChannelStream s2 trackerId channelId
  else
    stopNotify { s with error := some (.runtimeError errorValue trackerId (some channelId)) }

/-- The bound `_timeout` passes to `Condition.wait`:
`MAX_WAIT_TIME_S * len(self._all_trackers)` seconds. -/
def timeoutWaitBound (s : AnalogState) : ℕ := MAX_WAIT_TIME_S * s.allTrackers.length

/-- The body of `_timeout` after the wait returns: issue stop to every
tracker of the original set, swallowing stop failures (`stopFails` says
which stops raise), then dispatch through the error callback exactly one
of: the recorded session error; the "incomplete collection" error if the
wait timed out with trackers or channels still pending; or nothing.
Returns the attempted stops (with their outcomes) and the error-callback
invocations. -/
def timeoutWake (s : AnalogState) (notified : Bool) (stopFails : ℕ → Bool) :
    List (ℕ × Bool) × List AnalogErr :=
  (s.allTrackers.map (fun t => (t, stopFails t)),
   match s.error with
   | some e => [e]
   | none =>
     if ¬notified ∧ (s.expectedTrackers ≠ [] ∨ s.expectedChannels ≠ []) then
       [.analogError "Did not receive the full set of analog data"]
     else [])

/-- Claim C8: the watchdog waits at most the per-tracker timeout times
the number of trackers; on wake it issues stop to every tracker of the
original set regardless of stop failures; a recorded session error is
dispatched (exactly once) in preference to anything else; a timeout with
trackers still pending and no recorded error dispatches exactly one
"incomplete collection" error; a cleanly completed session (condition
signalled, no recorded error) dispatches nothing. -/
theorem orchestrator_timeout_watchdog (s : AnalogState) (stopFails : ℕ → Bool) :
    timeoutWaitBound s = MAX_WAIT_TIME_S * s.allTrackers.length ∧
    (∀ notified, ((timeoutWake s notified stopFails).1.map Prod.fst) = s.allTrackers) ∧
    (∀ e, s.error = some e → ∀ notified, (timeoutWake s notified stopFails).2 = [e]) ∧
    (s.error = none → s.expectedTrackers ≠ [] →
      (timeoutWake s false stopFails).2 =
        [.analogError "Did not receive the full set of analog data"]) ∧
    (s.error = none → (timeoutWake s true stopFails).2 = []) := by
  refine ⟨rfl, fun _ => by
    simp only [timeoutWake, List.map_map]
    rw [show (Prod.fst ∘ fun t => (t, stopFails t)) = id from rfl, List.map_id], ?_, ?_, ?_⟩
  · intro e he _
    simp [timeoutWake, he]
  · intro he hne
    simp [timeoutWake, he, hne]
  · intro he
    simp [timeoutWake, he]

/-- The state of the timeout scenario at wake: trackers {0, 1}, tracker
0 completed, tracker 1 never reported completion, no recorded error, the
condition variable never signalled. -/
def timeoutScenarioState : AnalogState :=
  { allTrackers := [0, 1], expectedTrackers := [1], expectedChannels := [],
    channel := AnalogChannelSelection.RINGDOWN }

theorem orchestrator_timeout_watchdog_witness :
    timeoutWaitBound timeoutScenarioState = MAX_WAIT_TIME_S * 2 ∧
    ((timeoutWake timeoutScenarioState false (fun t => t == 1)).1.map Prod.fst) = [0, 1] ∧
    (timeoutWake timeoutScenarioState false (fun t => t == 1)).2 =
      [.analogError "Did not receive the full set of analog data"] := by
  have h := orchestrator_timeout_watchdog timeoutScenarioState (fun t => t == 1)
  exact ⟨h.1, h.2.1 false, h.2.2.2.1 rfl (by decide)⟩

/-- The initial session state of a two-channel (SPARE_1 and SPARE_2)
megasample collection on tracker 0, as `sample` sets it up. -/
def twoChannelInit (vref : ℚ) : AnalogState :=
  { allTrackers := [0], expectedTrackers := [0],
    expectedChannels := [AnalogChannelSelection.SPARE_1, AnalogChannelSelection.SPARE_2],
    channel := AnalogChannelSelection.SPARE_1_AND_SPARE_2,
    adcReferenceVoltage := vref, megasampling := true }

/-- Claim C9: in two-channel sampling where channel SPARE_2 reports a
trigger-threshold error and channel SPARE_1 then completes normally, the
session does not abort: no session error is recorded, the erroring
channel's result is the zeroed placeholder (0, 0, 0), that channel
counts as completed so the session finalizes with SPARE_1's real values
alongside the placeholder, and the watchdog dispatches no error. -/
theorem two_channel_trigger_carveout (vref : ℚ) (mx mn cnt : ℕ) :
    (handleAnalogChannelWindowStream
        (handleChannelErrorStream (twoChannelInit vref) 0 AnalogChannelSelection.SPARE_2
          ErrorType.WINDOW_MEGASAMPLE_TRIGGER_ERROR)
        0 AnalogChannelSelection.SPARE_1 mx mn cnt).error = none ∧
    (handleAnalogChannelWindowStream
        (handleChannelErrorStream (twoChannelInit vref) 0 AnalogChannelSelection.SPARE_2
          ErrorType.WINDOW_MEGASAMPLE_TRIGGER_ERROR)
        0 AnalogChannelSelection.SPARE_1 mx mn cnt).doneResults =
      some (.window
        [(AnalogChannelSelection.SPARE_2, (0, 0, 0)),
         (AnalogChannelSelection.SPARE_1,
          (adcResultToVoltage vref 12 mx, adcResultToVoltage vref 12 mn, cnt))]) ∧
    (timeoutWake
        (handleAnalogChannelWindowStream
          (handleChannelErrorStream (twoChannelInit vref) 0 AnalogChannelSelection.SPARE_2
            ErrorType.WINDOW_MEGASAMPLE_TRIGGER_ERROR)
          0 AnalogChannelSelection.SPARE_1 mx mn cnt)
        (handleAnalogChannelWindowStream
          (handleChannelErrorStream (twoChannelInit vref) 0 AnalogChannelSelection.SPARE_2
            ErrorType.WINDOW_MEGASAMPLE_TRIGGER_ERROR)
          0 AnalogChannelSelection.SPARE_1 mx mn cnt).notified
        (fun _ => false)).2 = [] := by
  refine ⟨?_, ?_, ?_⟩ <;> rfl

end HawkEye
